import Mathlib

/-!
Verification of the cafe management system (cafemanage/cafe.py): a shallow
embedding of its data model and the order/table/menu operations, with theorems
about table reconciliation, order placement, id assignment and reporting.

Monetary values are represented in integer cents: an amount of n cents stands
for the 2-decimal-place currency value n / 100, so "rounded to 2 decimal
places" is the representation invariant itself.
-/

/-- Table status, the `status` string of a table record: one of
"Available", "Occupied", "Reserved". -/
inductive TStatus where
  | Available
  | Occupied
  | Reserved
  deriving DecidableEq

/-- Order status, one of "Pending", "Preparing", "Ready", "Completed",
"Cancelled". -/
inductive OStatus where
  | Pending
  | Preparing
  | Ready
  | Completed
  | Cancelled
  deriving DecidableEq

/-- Payment status: "Unpaid", "Paid" or "Partial" (`PartialPaid` here). -/
inductive PayStatus where
  | Unpaid
  | Paid
  | PartialPaid
  deriving DecidableEq

/-- A table record from tables_data.json: `{"table_number": ..., "status": ...}`. -/
structure Table where
  table_number : String
  status : TStatus
  deriving DecidableEq

/-- A line of an order's `items` list; `price` and `subtotal` are in cents. -/
structure LineItem where
  id : String
  name : String
  price : Nat
  quantity : Nat
  subtotal : Nat
  deriving DecidableEq

/-- An order record from orders_data.json. `table_number` is `none` when the
key is absent; the empty string models the falsy empty value. Monetary fields
are in cents. -/
structure Order where
  id : String
  customer_name : String
  table_number : Option String
  items : List LineItem
  subtotal : Nat
  discount : Nat
  tax : Nat
  service_charge : Nat
  total : Nat
  date : String
  time : String
  timestamp : String
  status : OStatus
  payment_status : PayStatus
  deriving DecidableEq

/-- A menu item record; `price` is in cents. -/
structure MenuItem where
  id : String
  name : String
  price : Nat
  category : String
  available : Bool
  description : String
  inventory : Nat
  deriving DecidableEq

/-- The menu document: `{"beverages": [...], "food": [...]}`. -/
structure Menu where
  beverages : List MenuItem
  food : List MenuItem
  deriving DecidableEq

/-- Error kinds of the spec's error taxonomy (§7). -/
inductive Err where
  | validationErr (msg : String)
  | notFound
  | duplicate
  | insufficientInventory (name : String) (avail : Nat)
  deriving DecidableEq

/-- `order.get("status") in ["Pending", "Preparing", "Ready"]`
(cafe.py line 283). -/
def activeStatus : OStatus → Bool
  | OStatus.Pending => true
  | OStatus.Preparing => true
  | OStatus.Ready => true
  | _ => false

/-- Python truthiness of `order.get("table_number")`: a missing key or the
empty string is falsy (cafe.py line 283). -/
def truthyTN : Option String → Bool
  | none => false
  | some s => s != ""

/-- Whether an order's table_number is truthy and equals the table number `n`:
the order would have put `n` into `active_tables` (cafe.py lines 283-284). -/
def refTN (tn : Option String) (n : String) : Bool :=
  match tn with
  | none => false
  | some s => s != "" && s == n

/-- `table["table_number"] in active_tables` (cafe.py lines 281-287):
some order is in an active status and carries this truthy table number. -/
def isActiveTable (orders : List Order) (n : String) : Bool :=
  orders.any (fun o => activeStatus o.status && refTN o.table_number n)

/-- The per-table body of the reconciliation loop (cafe.py lines 286-292):
active tables become Occupied; otherwise the status is reset to Available
unless it is Reserved. -/
def reconcileTable (orders : List Order) (t : Table) : Table :=
  if isActiveTable orders t.table_number then { t with status := TStatus.Occupied }
  else if t.status ≠ TStatus.Reserved then { t with status := TStatus.Available }
  else t

/-- The reconciliation pass of table_management_page (cafe.py lines 280-294). -/
def reconcile (orders : List Order) (tables : List Table) : List Table :=
  tables.map (reconcileTable orders)

theorem reconcileTable_table_number (orders : List Order) (t : Table) :
    (reconcileTable orders t).table_number = t.table_number := by
  unfold reconcileTable
  split
  · rfl
  · split <;> rfl

theorem reconcileTable_of_active (orders : List Order) (t : Table)
    (h : isActiveTable orders t.table_number = true) :
    (reconcileTable orders t).status = TStatus.Occupied := by
  simp [reconcileTable, h]

theorem reconcileTable_of_not_active (orders : List Order) (t : Table)
    (h : isActiveTable orders t.table_number = false) :
    (reconcileTable orders t).status =
      (if t.status = TStatus.Reserved then TStatus.Reserved else TStatus.Available) := by
  by_cases hr : t.status = TStatus.Reserved <;> simp [reconcileTable, h, hr]

theorem isActiveTable_iff (orders : List Order) (n : String) :
    isActiveTable orders n = true ↔
      ∃ o ∈ orders, o.table_number = some n ∧ n ≠ "" ∧ activeStatus o.status = true := by
  unfold isActiveTable
  rw [List.any_eq_true]
  constructor
  · rintro ⟨o, ho, hb⟩
    refine ⟨o, ho, ?_⟩
    cases htn : o.table_number with
    | none => simp [refTN, htn] at hb
    | some s =>
      simp only [refTN, htn, Bool.and_eq_true, bne_iff_ne, beq_iff_eq] at hb
      obtain ⟨ha, hs, hsn⟩ := hb
      subst hsn
      exact ⟨rfl, hs, ha⟩
  · rintro ⟨o, ho, htn, hn, ha⟩
    exact ⟨o, ho, by simp [refTN, htn, ha, hn]⟩

theorem reconcileTable_idem (orders : List Order) (t : Table) :
    reconcileTable orders (reconcileTable orders t) = reconcileTable orders t := by
  by_cases h : isActiveTable orders t.table_number = true
  · have h1 : reconcileTable orders t = { t with status := TStatus.Occupied } := by
      simp [reconcileTable, h]
    rw [h1]
    simp [reconcileTable, h]
  · replace h : isActiveTable orders t.table_number = false := by
      revert h; cases isActiveTable orders t.table_number <;> simp
    by_cases hr : t.status = TStatus.Reserved
    · have h1 : reconcileTable orders t = t := by simp [reconcileTable, h, hr]
      rw [h1]
      exact h1
    · have h1 : reconcileTable orders t = { t with status := TStatus.Available } := by
        simp [reconcileTable, h, hr]
      rw [h1]
      simp [reconcileTable, h]

/-- C4: reconcile is idempotent — for every table list and order list, applying
the reconciliation pass twice with the same order data yields exactly the same
table statuses as applying it once. -/
theorem reconcile_idempotent (orders : List Order) (tables : List Table) :
    reconcile orders (reconcile orders tables) = reconcile orders tables := by
  unfold reconcile
  rw [List.map_map]
  exact List.map_congr_left (fun t _ => reconcileTable_idem orders t)

/-- An active order whose table_number is the (falsy) empty string. -/
def exOrderEmptyTN : Order :=
  { id := "ORD00001", customer_name := "A", table_number := some "", items := [],
    subtotal := 0, discount := 0, tax := 0, service_charge := 0, total := 0,
    date := "2024-01-01", time := "10:00", timestamp := "2024-01-01 10:00:00",
    status := OStatus.Pending, payment_status := PayStatus.Unpaid }

/-- C3 counterexample: a table whose number is the empty string, and a Pending
order whose table_number equals that number. The claimed biconditional says the
table must come out Occupied, but the code's truthiness test skips the empty
table_number, so the table comes out Available. -/
theorem reconcile_empty_tn_cex :
    reconcile [exOrderEmptyTN] [Table.mk "" TStatus.Available]
        = [Table.mk "" TStatus.Available] ∧
    exOrderEmptyTN.table_number = some (Table.mk "" TStatus.Available).table_number ∧
    activeStatus exOrderEmptyTN.status = true ∧
    (Table.mk "" TStatus.Available).status ≠ TStatus.Occupied := by
  decide

/-- C3 (amended): after reconcile a table's status is Occupied if and only if
some order has a non-empty table_number equal to this table's number and an
active status (Pending, Preparing or Ready); if no such order exists and the
prior status was not Reserved, the status after reconcile is Available.
Reconcile itself acts per table by mapping `reconcileTable`. -/
theorem reconcile_occupied_iff (orders : List Order) (t : Table) :
    ((reconcileTable orders t).status = TStatus.Occupied ↔
      ∃ o ∈ orders, o.table_number = some t.table_number ∧ t.table_number ≠ "" ∧
        activeStatus o.status = true) ∧
    ((¬ ∃ o ∈ orders, o.table_number = some t.table_number ∧ t.table_number ≠ "" ∧
        activeStatus o.status = true) → t.status ≠ TStatus.Reserved →
      (reconcileTable orders t).status = TStatus.Available) ∧
    reconcile orders [t] = [reconcileTable orders t] := by
  refine ⟨?_, ?_, rfl⟩
  · constructor
    · intro h
      by_cases ha : isActiveTable orders t.table_number = true
      · exact (isActiveTable_iff orders t.table_number).1 ha
      · replace ha : isActiveTable orders t.table_number = false := by
          revert ha; cases isActiveTable orders t.table_number <;> simp
        rw [reconcileTable_of_not_active orders t ha] at h
        by_cases hr : t.status = TStatus.Reserved <;> simp [hr] at h
    · intro h
      exact reconcileTable_of_active orders t ((isActiveTable_iff orders t.table_number).2 h)
  · intro h hr
    have ha : isActiveTable orders t.table_number = false := by
      cases hb : isActiveTable orders t.table_number
      · rfl
      · exact absurd ((isActiveTable_iff orders t.table_number).1 hb) h
    rw [reconcileTable_of_not_active orders t ha]
    simp [hr]

/-- Witness for the amended C3 theorem at a concrete input. -/
theorem reconcile_occupied_iff_w :
    (reconcileTable [] (Table.mk "3" TStatus.Occupied)).status = TStatus.Available :=
  (reconcile_occupied_iff [] (Table.mk "3" TStatus.Occupied)).2.1 (by decide) (by decide)

/-- C5 counterexample: a Reserved table with the empty string as its number and
a Pending order referencing exactly that number. The claim says the active
reference forces Occupied, but the code's truthiness test ignores it and the
table stays Reserved. -/
theorem reserved_sticky_cex :
    reconcile [exOrderEmptyTN] [Table.mk "" TStatus.Reserved]
        = [Table.mk "" TStatus.Reserved] ∧
    exOrderEmptyTN.table_number = some (Table.mk "" TStatus.Reserved).table_number ∧
    activeStatus exOrderEmptyTN.status = true ∧
    (Table.mk "" TStatus.Reserved).status ≠ TStatus.Occupied := by
  decide

/-- C5 (amended): Reserved is sticky under reconciliation — a Reserved table
stays Reserved after reconcile unless some order with a non-empty table_number
equal to the table's number and an active status references it, in which case
its status becomes Occupied. -/
theorem reserved_sticky (orders : List Order) (t : Table)
    (hres : t.status = TStatus.Reserved) :
    ((¬ ∃ o ∈ orders, o.table_number = some t.table_number ∧ t.table_number ≠ "" ∧
        activeStatus o.status = true) →
      (reconcileTable orders t).status = TStatus.Reserved) ∧
    ((∃ o ∈ orders, o.table_number = some t.table_number ∧ t.table_number ≠ "" ∧
        activeStatus o.status = true) →
      (reconcileTable orders t).status = TStatus.Occupied) := by
  constructor
  · intro h
    have ha : isActiveTable orders t.table_number = false := by
      cases hb : isActiveTable orders t.table_number
      · rfl
      · exact absurd ((isActiveTable_iff orders t.table_number).1 hb) h
    rw [reconcileTable_of_not_active orders t ha]
    simp [hres]
  · intro h
    exact reconcileTable_of_active orders t ((isActiveTable_iff orders t.table_number).2 h)

/-- Witness for the amended C5 theorem at a concrete input. -/
theorem reserved_sticky_w :
    (reconcileTable [] (Table.mk "7" TStatus.Reserved)).status = TStatus.Reserved :=
  (reserved_sticky [] (Table.mk "7" TStatus.Reserved) (by decide)).1 (by decide)

/-- C10: during reconciliation an order with a missing or empty table_number
never contributes to occupancy — dropping all such orders leaves the result of
reconcile unchanged, and a table can only be Occupied after reconcile on
account of an order with a truthy (present and non-empty) table_number equal to
its own number and an active status. -/
theorem reconcile_ignores_empty_tn (orders : List Order) (tables : List Table) :
    reconcile orders tables
        = reconcile (orders.filter (fun o => truthyTN o.table_number)) tables ∧
    (∀ t ∈ reconcile orders tables, t.status = TStatus.Occupied →
      ∃ o ∈ orders, truthyTN o.table_number = true ∧ activeStatus o.status = true ∧
        o.table_number = some t.table_number) := by
  have hact : ∀ n, isActiveTable (orders.filter (fun o => truthyTN o.table_number)) n
      = isActiveTable orders n := by
    intro n
    unfold isActiveTable
    cases hb : orders.any (fun o => activeStatus o.status && refTN o.table_number n) with
    | true =>
      rw [List.any_eq_true] at hb ⊢
      obtain ⟨o, ho, hpo⟩ := hb
      refine ⟨o, List.mem_filter.2 ⟨ho, ?_⟩, hpo⟩
      simp only [Bool.and_eq_true] at hpo
      cases htn : o.table_number with
      | none => simp [refTN, htn] at hpo
      | some s =>
        simp only [refTN, htn, Bool.and_eq_true] at hpo
        simp [truthyTN, htn, hpo.2.1]
    | false =>
      rw [List.any_eq_false] at hb ⊢
      intro o ho
      exact hb o (List.mem_filter.1 ho).1
  constructor
  · unfold reconcile
    refine List.map_congr_left (fun t _ => ?_)
    unfold reconcileTable
    rw [hact t.table_number]
  · intro t ht hocc
    unfold reconcile at ht
    obtain ⟨t0, ht0, rfl⟩ := List.mem_map.1 ht
    by_cases ha : isActiveTable orders t0.table_number = true
    · obtain ⟨o, ho, htn, hn, hs⟩ := (isActiveTable_iff orders t0.table_number).1 ha
      refine ⟨o, ho, ?_, hs, ?_⟩
      · simp [truthyTN, htn, hn]
      · rw [reconcileTable_table_number]
        exact htn
    · replace ha : isActiveTable orders t0.table_number = false := by
        revert ha; cases isActiveTable orders t0.table_number <;> simp
      rw [reconcileTable_of_not_active orders t0 ha] at hocc
      by_cases hr : t0.status = TStatus.Reserved <;> simp [hr] at hocc

/-- An active order at table "3", used as a concrete reconciliation input. -/
def exOrderT3 : Order :=
  { id := "ORD00002", customer_name := "B", table_number := some "3", items := [],
    subtotal := 0, discount := 0, tax := 0, service_charge := 0, total := 0,
    date := "2024-01-01", time := "11:00", timestamp := "2024-01-01 11:00:00",
    status := OStatus.Preparing, payment_status := PayStatus.Unpaid }

/-- Witness for the C10 theorem at a concrete input: the Occupied table "3" is
accounted for by a truthy active order. -/
theorem reconcile_ignores_empty_tn_w :
    ∃ o ∈ [exOrderT3], truthyTN o.table_number = true ∧ activeStatus o.status = true ∧
      o.table_number = some (Table.mk "3" TStatus.Occupied).table_number :=
  (reconcile_ignores_empty_tn [exOrderT3] [Table.mk "3" TStatus.Available]).2
    (Table.mk "3" TStatus.Occupied) (by decide) (by decide)

/-- The status-update loop of order_management_page (cafe.py lines 448-453):
walk the order list and set the first order whose id matches to the new
status, leaving every other order untouched (`st.rerun()` stops the loop at
the first match). -/
def setStatusFirst (oid : String) (ns : OStatus) : List Order → List Order
  | [] => []
  | o :: rest =>
    if o.id = oid then { o with status := ns } :: rest
    else o :: setStatusFirst oid ns rest

/-- Modelled from the spec: `update_status(order_id, new_status)` (§4.4). The
matching-id update and persistence are the source's loop (cafe.py lines
448-453, embedded as `setStatusFirst`; the returned list is the persisted
document); the NotFoundError on an unknown id is the spec's contract, which
the source UI never exercises because it only offers existing orders. No
transition-graph restriction is applied: `ns` may be any of the five
statuses. -/
def updateStatus (oid : String) (ns : OStatus) (orders : List Order) :
    Except Err (List Order) :=
  if orders.any (fun o => o.id == oid) then Except.ok (setStatusFirst oid ns orders)
  else Except.error Err.notFound

theorem setStatusFirst_split (oid : String) (ns : OStatus) :
    ∀ orders : List Order, (∃ o ∈ orders, o.id = oid) →
      ∃ pre o post, orders = pre ++ o :: post ∧ (∀ p ∈ pre, p.id ≠ oid) ∧ o.id = oid ∧
        setStatusFirst oid ns orders = pre ++ { o with status := ns } :: post := by
  intro orders
  induction orders with
  | nil => rintro ⟨o, ho, _⟩; exact absurd ho (List.not_mem_nil o)
  | cons a rest ih =>
    intro hex
    by_cases ha : a.id = oid
    · exact ⟨[], a, rest, rfl, by simp, ha, by simp [setStatusFirst, ha]⟩
    · have hex2 : ∃ o ∈ rest, o.id = oid := by
        obtain ⟨o, ho, hoid⟩ := hex
        rcases List.mem_cons.1 ho with rfl | ho2
        · exact absurd hoid ha
        · exact ⟨o, ho2, hoid⟩
      obtain ⟨pre, o, post, heq, hpre, hoid, hset⟩ := ih hex2
      refine ⟨a :: pre, o, post, by rw [heq]; rfl, ?_, hoid, ?_⟩
      · intro p hp
        rcases List.mem_cons.1 hp with rfl | hp2
        · exact ha
        · exact hpre p hp2
      · simp [setStatusFirst, ha, hset]

/-- C7: update_status fails with NotFoundError when the order id matches no
existing order; otherwise it unconditionally sets the (first) matching order's
status to the requested value — any of the five statuses, with no
transition-graph restriction since `ns` is arbitrary — leaving every other
order unchanged, and returns the persisted list. -/
theorem update_status_spec (oid : String) (ns : OStatus) (orders : List Order) :
    ((∀ o ∈ orders, o.id ≠ oid) → updateStatus oid ns orders = Except.error Err.notFound) ∧
    ((∃ o ∈ orders, o.id = oid) →
      ∃ pre o post, orders = pre ++ o :: post ∧ (∀ p ∈ pre, p.id ≠ oid) ∧ o.id = oid ∧
        updateStatus oid ns orders = Except.ok (pre ++ { o with status := ns } :: post)) := by
  constructor
  · intro h
    have hany : orders.any (fun o => o.id == oid) = false := by
      rw [List.any_eq_false]
      intro o ho
      simp [h o ho]
    simp [updateStatus, hany]
  · intro hex
    obtain ⟨pre, o, post, heq, hpre, hoid, hset⟩ := setStatusFirst_split oid ns orders hex
    have hany : orders.any (fun o => o.id == oid) = true := by
      rw [List.any_eq_true]
      obtain ⟨o2, ho2, hid2⟩ := hex
      exact ⟨o2, ho2, by simp [hid2]⟩
    exact ⟨pre, o, post, heq, hpre, hoid, by simp [updateStatus, hany, hset]⟩

/-- Witness for the C7 theorem at concrete inputs: an unknown id is rejected. -/
theorem update_status_spec_w :
    updateStatus "ORD99999" OStatus.Completed [exOrderT3] = Except.error Err.notFound :=
  (update_status_spec "ORD99999" OStatus.Completed [exOrderT3]).1 (by decide)

/-- Python `c.isspace()`-relevant whitespace for `str.strip()` with no
argument: space, tab, newline, carriage return, vertical tab, form feed. -/
def isPySpace (c : Char) : Bool :=
  c == ' ' || c == '\t' || c == '\n' || c == '\r' || c == Char.ofNat 11 || c == Char.ofNat 12

/-- Python `s.strip()`: drop whitespace from both ends. -/
def pyStrip (s : String) : String :=
  String.mk (((s.data.dropWhile isPySpace).reverse.dropWhile isPySpace).reverse)

/-- The Add Table handler (cafe.py lines 321-330): reject when the RAW input
already occurs as a table number, then reject when the stripped input is
empty, else append a table with the STRIPPED number and status Available.
Both rejections are DuplicateError in the spec's error taxonomy (§4.2, §7);
the returned list is the persisted document. -/
def addTable (num : String) (tables : List Table) : Except Err (List Table) :=
  if tables.any (fun t => t.table_number == num) then Except.error Err.duplicate
  else if pyStrip num = "" then Except.error Err.duplicate
  else Except.ok (tables ++ [Table.mk (pyStrip num) TStatus.Available])

/-- The table "5", present before the C8 counterexample call. -/
def tbl5 : Table := Table.mk "5" TStatus.Available

/-- The raw input " 5" (leading space) of the C8 counterexample. -/
def strSp5 : String := " 5"

/-- C8 counterexample: with table "5" present, add_table " 5" is NOT rejected
(the duplicate check compares the raw input) yet appends the STRIPPED number
"5", so the call succeeds, the appended number differs from the argument, and
table numbers are no longer unique. -/
theorem add_table_cex :
    addTable strSp5 [tbl5] = Except.ok [tbl5, tbl5] ∧
    pyStrip strSp5 ≠ strSp5 ∧
    ¬ (List.map Table.table_number [tbl5, tbl5]).Nodup :=
  ⟨rfl, by decide, by decide⟩

/-- C8 (amended): add_table fails with DuplicateError when the raw argument
already occurs verbatim as a table number or when it strips to the empty
string; otherwise it appends a new table with the STRIPPED argument as its
number and status Available. Uniqueness of table numbers is preserved by every
successful call whose argument is already stripped (equal to its own strip);
an argument with surrounding whitespace can evade the duplicate check and
create a duplicate stripped number. -/
theorem add_table_spec (num : String) (tables : List Table) :
    ((∃ t ∈ tables, t.table_number = num) → addTable num tables = Except.error Err.duplicate) ∧
    (pyStrip num = "" → (∀ t ∈ tables, t.table_number ≠ num) →
      addTable num tables = Except.error Err.duplicate) ∧
    ((∀ t ∈ tables, t.table_number ≠ num) → pyStrip num ≠ "" →
      addTable num tables = Except.ok (tables ++ [Table.mk (pyStrip num) TStatus.Available]) ∧
      (pyStrip num = num → (List.map Table.table_number tables).Nodup →
        (List.map Table.table_number
          (tables ++ [Table.mk (pyStrip num) TStatus.Available])).Nodup)) := by
  refine ⟨?_, ?_, ?_⟩
  · intro h
    have hany : tables.any (fun t => t.table_number == num) = true := by
      rw [List.any_eq_true]
      obtain ⟨t, ht, hn⟩ := h
      exact ⟨t, ht, by simp [hn]⟩
    simp [addTable, hany]
  · intro hstrip h
    have hany : tables.any (fun t => t.table_number == num) = false := by
      rw [List.any_eq_false]
      intro t ht
      simp [h t ht]
    simp [addTable, hany, hstrip]
  · intro h hstrip
    have hany : tables.any (fun t => t.table_number == num) = false := by
      rw [List.any_eq_false]
      intro t ht
      simp [h t ht]
    refine ⟨by simp [addTable, hany, hstrip], ?_⟩
    intro heq hnd
    rw [List.map_append, List.nodup_append]
    refine ⟨hnd, by simp, ?_⟩
    intro n hn hn2
    simp only [List.map_cons, List.map_nil, List.mem_cons, List.not_mem_nil, or_false] at hn2
    subst hn2
    obtain ⟨t, ht, hteq⟩ := List.mem_map.1 hn
    rw [heq] at hteq
    exact h t ht hteq

/-- Witness for the amended C8 theorem at a concrete input: adding table "6"
to a list holding table "5" succeeds and keeps the numbers unique. -/
theorem add_table_spec_w :
    addTable "6" [tbl5] = Except.ok [tbl5, Table.mk (pyStrip "6") TStatus.Available] ∧
    (List.map Table.table_number
      [tbl5, Table.mk (pyStrip "6") TStatus.Available]).Nodup := by
  have h := (add_table_spec "6" [tbl5]).2.2 (by decide) (by decide)
  exact ⟨h.1, h.2 (by decide) (by decide)⟩

/-- The numeric value of a digit string, as Python `int` computes it on a
string of decimal digits (underscores and surrounding whitespace, which the
builtin also tolerates, never occur in the generated ids and are not
modelled). -/
def digitsVal (l : List Char) : Nat :=
  l.foldl (fun a c => a * 10 + (c.toNat - 48)) 0

/-- Python `int(s)` on the characters of `s`: an optional sign followed by at
least one decimal digit parses; anything else raises (returns `none`). -/
def pyInt (l : List Char) : Option Int :=
  match l with
  | [] => none
  | c :: rest =>
    if c = '-' then
      if rest ≠ [] ∧ rest.all Char.isDigit then some (-((digitsVal rest : Nat) : Int))
      else none
    else if c = '+' then
      if rest ≠ [] ∧ rest.all Char.isDigit then some ((digitsVal rest : Nat) : Int)
      else none
    else if (c :: rest).all Char.isDigit then some ((digitsVal (c :: rest) : Nat) : Int)
    else none

/-- Whether `p` occurs at the head of `l`. -/
def listStartsWith : List Char → List Char → Bool
  | [], _ => true
  | _ :: _, [] => false
  | p :: ps, c :: cs => p == c && listStartsWith ps cs

/-- Fuelled worker for `delAll`; the fuel is at least the list length at every
call, so the fuel-exhausted branch is never taken. -/
def delAllF (pat : List Char) : Nat → List Char → List Char
  | _, [] => []
  | 0, l => l
  | fuel + 1, c :: rest =>
    if pat ≠ [] ∧ listStartsWith pat (c :: rest) = true then
      delAllF pat fuel (List.drop (pat.length - 1) rest)
    else c :: delAllF pat fuel rest

/-- Python `s.replace(pat, "")`: delete every (left-to-right, non-overlapping)
occurrence of `pat` (cafe.py line 202 uses it to strip the id's letter part). -/
def delAll (pat l : List Char) : List Char := delAllF pat l.length l

theorem delAllF_fuel (pat : List Char) :
    ∀ f1 f2 l, l.length ≤ f1 → l.length ≤ f2 → delAllF pat f1 l = delAllF pat f2 l := by
  intro f1
  induction f1 with
  | zero =>
    intro f2 l h1 _
    have : l = [] := List.eq_nil_of_length_eq_zero (Nat.le_zero.1 h1)
    subst this
    cases f2 <;> rfl
  | succ g ih =>
    intro f2 l h1 h2
    cases l with
    | nil => cases f2 <;> rfl
    | cons c rest =>
      cases f2 with
      | zero => simp at h2
      | succ h =>
        simp only [delAllF]
        split
        · apply ih
          · have := List.length_drop (pat.length - 1) rest
            simp only [List.length_cons] at h1
            omega
          · have := List.length_drop (pat.length - 1) rest
            simp only [List.length_cons] at h2
            omega
        · simp only [List.length_cons] at h1 h2
          rw [ih h rest (by omega) (by omega)]

theorem delAll_nil (pat : List Char) : delAll pat [] = [] := rfl

theorem delAll_cons (pat : List Char) (c : Char) (rest : List Char) :
    delAll pat (c :: rest) =
      if pat ≠ [] ∧ listStartsWith pat (c :: rest) = true then
        delAll pat (List.drop (pat.length - 1) rest)
      else c :: delAll pat rest := by
  show delAllF pat (c :: rest).length (c :: rest) = _
  simp only [List.length_cons, delAllF]
  split
  · exact delAllF_fuel pat rest.length (List.drop (pat.length - 1) rest).length _
      (by have := List.length_drop (pat.length - 1) rest; omega) (le_refl _)
  · rfl

theorem listStartsWith_iff :
    ∀ p l : List Char, listStartsWith p l = true ↔ ∃ r, l = p ++ r := by
  intro p
  induction p with
  | nil => intro l; simp [listStartsWith]
  | cons a ps ih =>
    intro l
    cases l with
    | nil => simp [listStartsWith]
    | cons c cs =>
      simp only [listStartsWith, Bool.and_eq_true, beq_iff_eq, ih cs]
      constructor
      · rintro ⟨rfl, r, rfl⟩
        exact ⟨r, rfl⟩
      · rintro ⟨r, hr⟩
        rw [List.cons_append] at hr
        injection hr with h1 h2
        exact ⟨h1.symm, r, h2⟩

theorem delAll_no_occur (pat : List Char) (ch : Char) (hch : ch ∈ pat) :
    ∀ l : List Char, ch ∉ l → delAll pat l = l := by
  intro l
  induction l with
  | nil => intro _; rfl
  | cons c rest ih =>
    intro hl
    rw [delAll_cons]
    rw [if_neg]
    · rw [ih (fun hm => hl (List.mem_cons_of_mem c hm))]
    · rintro ⟨_, hsw⟩
      obtain ⟨r, hr⟩ := (listStartsWith_iff pat (c :: rest)).1 hsw
      apply hl
      rw [hr]
      exact List.mem_append.2 (Or.inl hch)

theorem delAll_strip (pat s : List Char) (hp : pat ≠ []) :
    delAll pat (pat ++ s) = delAll pat s := by
  cases pat with
  | nil => exact absurd rfl hp
  | cons a ps =>
    rw [List.cons_append, delAll_cons, if_pos]
    · have : List.length (a :: ps) - 1 = ps.length := by simp
      rw [this, List.drop_left]
    · exact ⟨hp, (listStartsWith_iff (a :: ps) (a :: (ps ++ s))).2 ⟨s, rfl⟩⟩

theorem delAll_of_all_digit (pat l : List Char) (ch : Char) (hch : ch ∈ pat)
    (hnd : ch.isDigit = false) (hl : l.all Char.isDigit = true) : delAll pat l = l := by
  apply delAll_no_occur pat ch hch
  intro hm
  rw [List.all_eq_true] at hl
  rw [hl ch hm] at hnd
  cases hnd

/-- Fuelled worker for `natToDigits`. -/
def natToDigitsF : Nat → Nat → List Char → List Char
  | 0, _, acc => acc
  | fuel + 1, n, acc =>
    if n < 10 then Char.ofNat (48 + n) :: acc
    else natToDigitsF fuel (n / 10) (Char.ofNat (48 + n % 10) :: acc)

/-- The decimal digit characters of `n`, most significant first, as `"%d"`
renders a non-negative integer. -/
def natToDigits (n : Nat) : List Char := natToDigitsF (n + 1) n []

theorem natToDigitsF_acc :
    ∀ fuel n acc, natToDigitsF fuel n acc = natToDigitsF fuel n [] ++ acc := by
  intro fuel
  induction fuel with
  | zero => intro n acc; rfl
  | succ g ih =>
    intro n acc
    simp only [natToDigitsF]
    split
    · rfl
    · rw [ih (n / 10) (Char.ofNat (48 + n % 10) :: acc),
        ih (n / 10) [Char.ofNat (48 + n % 10)], List.append_assoc]
      rfl

theorem natToDigitsF_fuel :
    ∀ f1 f2 n acc, n < f1 → n < f2 → natToDigitsF f1 n acc = natToDigitsF f2 n acc := by
  intro f1
  induction f1 with
  | zero => intro f2 n acc h1 _; omega
  | succ g ih =>
    intro f2 n acc h1 h2
    cases f2 with
    | zero => omega
    | succ h =>
      simp only [natToDigitsF]
      split
      · rfl
      · have hn : 10 ≤ n := by omega
        have hdiv : n / 10 < n := Nat.div_lt_self (by omega) (by omega)
        exact ih h (n / 10) _ (by omega) (by omega)

theorem natToDigits_small (n : Nat) (h : n < 10) :
    natToDigits n = [Char.ofNat (48 + n)] := by
  show natToDigitsF (n + 1) n [] = _
  simp only [natToDigitsF]
  rw [if_pos h]

theorem natToDigits_step (n : Nat) (h : 10 ≤ n) :
    natToDigits n = natToDigits (n / 10) ++ [Char.ofNat (48 + n % 10)] := by
  have h1 : natToDigits n = natToDigitsF n (n / 10) [Char.ofNat (48 + n % 10)] := by
    show natToDigitsF (n + 1) n [] = _
    simp only [natToDigitsF]
    rw [if_neg (Nat.not_lt.2 h)]
  rw [h1, natToDigitsF_acc]
  have hdiv : n / 10 < n := Nat.div_lt_self (by omega) (by omega)
  rw [natToDigitsF_fuel n (n / 10 + 1) (n / 10) [] (by omega) (by omega)]
  rfl

theorem digitChar_toNat (d : Nat) (h : d < 10) : (Char.ofNat (48 + d)).toNat = 48 + d := by
  interval_cases d <;> decide

theorem digitChar_isDigit (d : Nat) (h : d < 10) : (Char.ofNat (48 + d)).isDigit = true := by
  interval_cases d <;> decide

theorem natToDigits_all_digit : ∀ n, (natToDigits n).all Char.isDigit = true := by
  intro n
  induction n using Nat.strong_induction_on with
  | _ n ih =>
    by_cases h : n < 10
    · rw [natToDigits_small n h]
      simp [digitChar_isDigit n h]
    · rw [natToDigits_step n (by omega), List.all_append]
      have hdiv : n / 10 < n := Nat.div_lt_self (by omega) (by omega)
      rw [ih (n / 10) hdiv]
      simp [digitChar_isDigit (n % 10) (Nat.mod_lt n (by omega))]

theorem natToDigits_ne_nil (n : Nat) : natToDigits n ≠ [] := by
  by_cases h : n < 10
  · rw [natToDigits_small n h]; simp
  · rw [natToDigits_step n (by omega)]; simp

theorem digitsVal_append_single (l : List Char) (c : Char) :
    digitsVal (l ++ [c]) = digitsVal l * 10 + (c.toNat - 48) := by
  simp only [digitsVal, List.foldl_append, List.foldl_cons, List.foldl_nil]

theorem digitsVal_natToDigits : ∀ n, digitsVal (natToDigits n) = n := by
  intro n
  induction n using Nat.strong_induction_on with
  | _ n ih =>
    by_cases h : n < 10
    · rw [natToDigits_small n h]
      simp only [digitsVal, List.foldl_cons, List.foldl_nil]
      rw [digitChar_toNat n h]
      omega
    · have hdiv : n / 10 < n := Nat.div_lt_self (by omega) (by omega)
      rw [natToDigits_step n (by omega), digitsVal_append_single, ih (n / 10) hdiv,
        digitChar_toNat (n % 10) (Nat.mod_lt n (by omega))]
      omega

theorem digitsVal_zeros_append (k : Nat) (l : List Char) :
    digitsVal (List.replicate k '0' ++ l) = digitsVal l := by
  have hz : ∀ j, List.foldl (fun a c => a * 10 + (c.toNat - 48)) 0 (List.replicate j '0') = 0 := by
    intro j
    induction j with
    | zero => rfl
    | succ i ihi => simpa [List.replicate_succ] using ihi
  simp only [digitsVal, List.foldl_append, hz]

theorem pyInt_digits (l : List Char) (h1 : l ≠ []) (h2 : l.all Char.isDigit = true) :
    pyInt l = some ((digitsVal l : Nat) : Int) := by
  cases l with
  | nil => exact absurd rfl h1
  | cons c rest =>
    have hc : c.isDigit = true := by
      rw [List.all_eq_true] at h2
      exact h2 c (List.mem_cons_self c rest)
    have hc1 : ¬ c = '-' := by rintro rfl; cases hc
    have hc2 : ¬ c = '+' := by rintro rfl; cases hc
    simp only [pyInt, if_neg hc1, if_neg hc2, if_pos h2]

/-- Python `f"{n:03d}"` for a non-negative `n`: the decimal digits left-padded
with zeros to a minimum width of 3 (cafe.py line 207). -/
def pad3 (n : Nat) : String :=
  String.mk (List.replicate (3 - (natToDigits n).length) '0' ++ natToDigits n)

theorem pad3_data (n : Nat) :
    (pad3 n).data = List.replicate (3 - (natToDigits n).length) '0' ++ natToDigits n := rfl

theorem pad3_all_digit (n : Nat) : (pad3 n).data.all Char.isDigit = true := by
  rw [pad3_data, List.all_append]
  have h1 : (List.replicate (3 - (natToDigits n).length) '0').all Char.isDigit = true := by
    rw [List.all_eq_true]
    intro c hc
    rw [List.eq_of_mem_replicate hc]
    decide
  rw [h1, natToDigits_all_digit]
  rfl

theorem pad3_ne_nil (n : Nat) : (pad3 n).data ≠ [] := by
  rw [pad3_data]
  intro h
  exact natToDigits_ne_nil n (List.append_eq_nil.1 h).2

theorem pyInt_pad3 (n : Nat) : pyInt (pad3 n).data = some ((n : Nat) : Int) := by
  rw [pyInt_digits (pad3 n).data (pad3_ne_nil n) (pad3_all_digit n), pad3_data,
    digitsVal_zeros_append, digitsVal_natToDigits]

/-- The numeric suffix the source extracts from an id:
`int(itm["id"].replace(prefix, ""))`, `none` when `int` raises
(cafe.py lines 201-206). -/
def suffixNum (pfx idStr : String) : Option Int := pyInt (delAll pfx.data idStr.data)

/-- One step of the max-suffix scan (cafe.py lines 199-206): ids whose
stripped form does not parse are skipped, and only strictly larger parsed
values replace the running maximum (which starts at 0). -/
def maxStep (pfx : String) (m : Nat) (itm : MenuItem) : Nat :=
  match suffixNum pfx itm.id with
  | some v => if (m : Int) < v then v.toNat else m
  | none => m

/-- `max_id` after the scan over the existing items of one type
(cafe.py lines 199-206). -/
def maxIdNum (pfx : String) (existing : List MenuItem) : Nat :=
  existing.foldl (maxStep pfx) 0

/-- The id assigned to a newly added item:
`f"{prefix}{max_id + 1:03d}"` (cafe.py line 207). -/
def mkId (pfx : String) (existing : List MenuItem) : String :=
  pfx ++ pad3 (maxIdNum pfx existing + 1)

/-- The two item types of the menu document. -/
inductive ItemType where
  | beverages
  | food
  deriving DecidableEq

/-- `"BEV" if item_type == "beverages" else "FOOD"` (cafe.py line 196). -/
def prefixOf : ItemType → String
  | ItemType.beverages => "BEV"
  | ItemType.food => "FOOD"

/-- The list of a type's items in the menu document. -/
def listOf (m : Menu) : ItemType → List MenuItem
  | ItemType.beverages => m.beverages
  | ItemType.food => m.food

/-- The other item type. -/
def otherTy : ItemType → ItemType
  | ItemType.beverages => ItemType.food
  | ItemType.food => ItemType.beverages

/-- The Add Item handler (cafe.py lines 194-222): reject falsy name, price or
category, else assign the generated id and append the item to its type's list
in the persisted menu document. Returns the updated menu and the new id. -/
def addItem (m : Menu) (ty : ItemType) (nm : String) (pr : Nat) (cat : String)
    (ds : String) (inv : Nat) (av : Bool) : Option (Menu × String) :=
  if nm ≠ "" ∧ pr ≠ 0 ∧ cat ≠ "" then
    match ty with
    | ItemType.beverages =>
      some ({ m with beverages := m.beverages
          ++ [MenuItem.mk (mkId (prefixOf ItemType.beverages) m.beverages) nm pr cat av ds inv] },
        mkId (prefixOf ItemType.beverages) m.beverages)
    | ItemType.food =>
      some ({ m with food := m.food
          ++ [MenuItem.mk (mkId (prefixOf ItemType.food) m.food) nm pr cat av ds inv] },
        mkId (prefixOf ItemType.food) m.food)
  else none

theorem suffixNum_pfx_pad3 (pfx : String) (hp : pfx.data ≠ []) (ch : Char)
    (hch : ch ∈ pfx.data) (hnd : ch.isDigit = false) (k : Nat) :
    suffixNum pfx (pfx ++ pad3 k) = some ((k : Nat) : Int) := by
  unfold suffixNum
  rw [String.data_append, delAll_strip pfx.data (pad3 k).data hp,
    delAll_of_all_digit pfx.data (pad3 k).data ch hch hnd (pad3_all_digit k)]
  exact pyInt_pad3 k

theorem prefixOf_nondigit (ty : ItemType) :
    (prefixOf ty).data ≠ [] ∧
      ∃ ch ∈ (prefixOf ty).data, ch.isDigit = false := by
  cases ty
  · exact ⟨by decide, 'B', by decide, by decide⟩
  · exact ⟨by decide, 'F', by decide, by decide⟩

theorem suffixNum_mkId (ty : ItemType) (existing : List MenuItem) :
    suffixNum (prefixOf ty) (mkId (prefixOf ty) existing)
      = some ((maxIdNum (prefixOf ty) existing + 1 : Nat) : Int) := by
  obtain ⟨hp, ch, hch, hnd⟩ := prefixOf_nondigit ty
  exact suffixNum_pfx_pad3 (prefixOf ty) hp ch hch hnd (maxIdNum (prefixOf ty) existing + 1)

theorem le_maxStep (pfx : String) (m : Nat) (itm : MenuItem) : m ≤ maxStep pfx m itm := by
  unfold maxStep
  cases suffixNum pfx itm.id with
  | none => exact le_refl m
  | some v =>
    dsimp only
    split
    · omega
    · exact le_refl m

theorem le_foldl_maxStep (pfx : String) :
    ∀ (l : List MenuItem) (m : Nat), m ≤ List.foldl (maxStep pfx) m l := by
  intro l
  induction l with
  | nil => intro m; exact le_refl m
  | cons a rest ih =>
    intro m
    exact le_trans (le_maxStep pfx m a) (ih (maxStep pfx m a))

theorem val_le_maxStep (pfx : String) (m : Nat) (itm : MenuItem) (v : Int)
    (h : suffixNum pfx itm.id = some v) : v ≤ ((maxStep pfx m itm : Nat) : Int) := by
  unfold maxStep
  rw [h]
  dsimp only
  split
  · omega
  · omega

theorem val_le_foldl_maxStep (pfx : String) :
    ∀ (l : List MenuItem) (m : Nat) (itm : MenuItem), itm ∈ l →
      ∀ v : Int, suffixNum pfx itm.id = some v →
        v ≤ ((List.foldl (maxStep pfx) m l : Nat) : Int) := by
  intro l
  induction l with
  | nil => intro m itm h; exact absurd h (List.not_mem_nil itm)
  | cons a rest ih =>
    intro m itm hmem v hv
    rw [List.foldl_cons]
    rcases List.mem_cons.1 hmem with rfl | hmem2
    · calc v ≤ ((maxStep pfx m itm : Nat) : Int) := val_le_maxStep pfx m itm v hv
        _ ≤ ((List.foldl (maxStep pfx) (maxStep pfx m itm) rest : Nat) : Int) := by
          exact_mod_cast le_foldl_maxStep pfx rest (maxStep pfx m itm)
    · exact ih (maxStep pfx m a) itm hmem2 v hv

theorem mkId_not_mem (ty : ItemType) (existing : List MenuItem) :
    ∀ itm ∈ existing, itm.id ≠ mkId (prefixOf ty) existing := by
  intro itm hmem heq
  have h1 : suffixNum (prefixOf ty) itm.id
      = some ((maxIdNum (prefixOf ty) existing + 1 : Nat) : Int) := by
    rw [heq]; exact suffixNum_mkId ty existing
  have h2 := val_le_foldl_maxStep (prefixOf ty) existing 0 itm hmem
    ((maxIdNum (prefixOf ty) existing + 1 : Nat) : Int) h1
  have h4 : ((maxIdNum (prefixOf ty) existing + 1 : Nat) : Int)
      ≤ ((maxIdNum (prefixOf ty) existing : Nat) : Int) := h2
  omega

theorem maxIdNum_append_mkId (ty : ItemType) (existing : List MenuItem) (itm : MenuItem)
    (hid : itm.id = mkId (prefixOf ty) existing) :
    maxIdNum (prefixOf ty) (existing ++ [itm]) = maxIdNum (prefixOf ty) existing + 1 := by
  have h0 : maxIdNum (prefixOf ty) (existing ++ [itm])
      = maxStep (prefixOf ty) (maxIdNum (prefixOf ty) existing) itm := by
    unfold maxIdNum
    rw [List.foldl_append, List.foldl_cons, List.foldl_nil]
  rw [h0]
  unfold maxStep
  rw [hid, suffixNum_mkId ty existing]
  dsimp only
  rw [if_pos (by omega)]
  omega

theorem bev_ne_food_append (s t : String) : ("BEV" ++ s) ≠ ("FOOD" ++ t) := by
  intro h
  have hd := congrArg String.data h
  rw [String.data_append, String.data_append] at hd
  have h1 : ("BEV" : String).data = ['B', 'E', 'V'] := rfl
  have h2 : ("FOOD" : String).data = ['F', 'O', 'O', 'D'] := rfl
  rw [h1, h2] at hd
  simp only [List.cons_append] at hd
  injection hd with hbf _
  exact absurd hbf (by decide)

/-- C6: the id assigned by add_item is the type's prefix (BEV or FOOD)
followed by the `%03d`-padded successor of the maximum numeric suffix parsed
from the existing ids of that type (so 001 when none parses); the new id's
suffix strictly exceeds every parsed existing suffix, the id differs from
every existing id of the same type and — whenever the other type's ids carry
the other prefix, as add_item always assigns — from every id of the other
type; and after a successful add_item the maximum advances by exactly one, so
the next assigned id's suffix is the successor of this one (ids strictly
increase within their prefix across any sequence of same-type calls). -/
theorem add_item_id_spec (ty : ItemType) (m : Menu) :
    mkId (prefixOf ty) (listOf m ty)
        = prefixOf ty ++ pad3 (maxIdNum (prefixOf ty) (listOf m ty) + 1) ∧
    suffixNum (prefixOf ty) (mkId (prefixOf ty) (listOf m ty))
        = some ((maxIdNum (prefixOf ty) (listOf m ty) + 1 : Nat) : Int) ∧
    (∀ itm ∈ listOf m ty, itm.id ≠ mkId (prefixOf ty) (listOf m ty)) ∧
    (∀ itm ∈ listOf m (otherTy ty), (∃ r, itm.id = prefixOf (otherTy ty) ++ r) →
      itm.id ≠ mkId (prefixOf ty) (listOf m ty)) ∧
    (∀ nm pr cat ds inv av m2 idNew, addItem m ty nm pr cat ds inv av = some (m2, idNew) →
      idNew = mkId (prefixOf ty) (listOf m ty) ∧
      listOf m2 ty = listOf m ty ++ [MenuItem.mk idNew nm pr cat av ds inv] ∧
      listOf m2 (otherTy ty) = listOf m (otherTy ty) ∧
      maxIdNum (prefixOf ty) (listOf m2 ty) = maxIdNum (prefixOf ty) (listOf m ty) + 1 ∧
      suffixNum (prefixOf ty) (mkId (prefixOf ty) (listOf m2 ty))
        = some ((maxIdNum (prefixOf ty) (listOf m ty) + 2 : Nat) : Int)) := by
  refine ⟨rfl, suffixNum_mkId ty (listOf m ty), mkId_not_mem ty (listOf m ty), ?_, ?_⟩
  · intro itm _ hpre heq
    obtain ⟨r, hr⟩ := hpre
    rw [hr] at heq
    unfold mkId at heq
    cases ty
    · exact bev_ne_food_append (pad3 (maxIdNum (prefixOf ItemType.beverages)
        (listOf m ItemType.beverages) + 1)) r heq.symm
    · exact bev_ne_food_append r (pad3 (maxIdNum (prefixOf ItemType.food)
        (listOf m ItemType.food) + 1)) heq
  · intro nm pr cat ds inv av m2 idNew h
    unfold addItem at h
    by_cases hv : nm ≠ "" ∧ pr ≠ 0 ∧ cat ≠ ""
    · rw [if_pos hv] at h
      cases ty
      · simp only [Option.some_inj, Prod.mk.injEq] at h
        obtain ⟨hm2, hid⟩ := h
        subst hid
        subst hm2
        refine ⟨rfl, rfl, rfl, ?_, ?_⟩
        · exact maxIdNum_append_mkId ItemType.beverages m.beverages _ rfl
        · show suffixNum _ (mkId _ (m.beverages ++ [_])) = _
          rw [suffixNum_mkId ItemType.beverages (m.beverages ++ [_]),
            maxIdNum_append_mkId ItemType.beverages m.beverages _ rfl]
          simp only [listOf, Option.some_inj, Nat.cast_inj]
      · simp only [Option.some_inj, Prod.mk.injEq] at h
        obtain ⟨hm2, hid⟩ := h
        subst hid
        subst hm2
        refine ⟨rfl, rfl, rfl, ?_, ?_⟩
        · exact maxIdNum_append_mkId ItemType.food m.food _ rfl
        · show suffixNum _ (mkId _ (m.food ++ [_])) = _
          rw [suffixNum_mkId ItemType.food (m.food ++ [_]),
            maxIdNum_append_mkId ItemType.food m.food _ rfl]
          simp only [listOf, Option.some_inj, Nat.cast_inj]
    · rw [if_neg hv] at h
      cases h

/-- The Espresso menu item of the default menu document. -/
def exEspresso : MenuItem :=
  MenuItem.mk "BEV001" "Espresso" 250 "Coffee" true "Strong black coffee" 50

/-- A one-beverage menu used as a concrete input for C6. -/
def exMenuC6 : Menu := Menu.mk [exEspresso] []

/-- Witness for the C6 theorem at a concrete input: in a menu whose beverages
are [BEV001], the id generator does not reuse the existing id. -/
theorem add_item_id_spec_w :
    exEspresso.id ≠ mkId (prefixOf ItemType.beverages) (listOf exMenuC6 ItemType.beverages) :=
  (add_item_id_spec ItemType.beverages exMenuC6).2.2.1 exEspresso (by decide)

theorem find?_split {α : Type} (p : α → Bool) :
    ∀ (l : List α) (x : α), l.find? p = some x →
      p x = true ∧ ∃ pre post, l = pre ++ x :: post ∧ ∀ y ∈ pre, p y = false := by
  intro l
  induction l with
  | nil => intro x h; cases h
  | cons a rest ih =>
    intro x h
    by_cases hpa : p a = true
    · rw [List.find?_cons_of_pos rest hpa] at h
      injection h with hx
      subst hx
      exact ⟨hpa, [], rest, rfl, by simp⟩
    · have hpa2 : ¬ p a := by simp [hpa]
      rw [List.find?_cons_of_neg rest hpa2] at h
      obtain ⟨hpx, pre, post, heq, hpre⟩ := ih x h
      refine ⟨hpx, a :: pre, post, by rw [heq]; rfl, ?_⟩
      intro y hy
      rcases List.mem_cons.1 hy with rfl | hy2
      · simpa using hpa2
      · exact hpre y hy2

theorem find?_of_ex {α : Type} (p : α → Bool) :
    ∀ l : List α, (∃ x ∈ l, p x = true) → ∃ y, l.find? p = some y := by
  intro l
  induction l with
  | nil => rintro ⟨x, hx, _⟩; exact absurd hx (List.not_mem_nil x)
  | cons a rest ih =>
    rintro ⟨x, hx, hpx⟩
    by_cases hpa : p a = true
    · exact ⟨a, List.find?_cons_of_pos rest hpa⟩
    · have hpa2 : ¬ p a := by simp [hpa]
      rcases List.mem_cons.1 hx with rfl | hx2
      · exact absurd hpx hpa
      · obtain ⟨y, hy⟩ := ih ⟨x, hx2, hpx⟩
        exact ⟨y, by rw [List.find?_cons_of_neg rest hpa2]; exact hy⟩

/-- A tax or service rate, kept as the exact fraction num/den: the spec's
tax_rate 0.10 is 10/100 and service rate 0.05 is 5/100. -/
structure Rate where
  num : Nat
  den : Nat
  deriving DecidableEq

/-- Round the non-negative amount a/b of cents to the nearest whole cent,
halves rounding up — this is round(x, 2) on the corresponding currency value.
(Python's round sends exact half-cent ties to even instead; no value in the
spec's examples hits a tie.) -/
def roundCents (a b : Nat) : Nat := (2 * a + b) / (2 * b)

/-- round(rate × amount, 2) with money in cents. -/
def rateApply (r : Rate) (amount : Nat) : Nat := roundCents (r.num * amount) r.den

/-- A cart line: the chosen item's id, name and price plus the requested
quantity (spec §3, Cart). -/
structure CartLine where
  id : String
  name : String
  price : Nat
  quantity : Nat
  deriving DecidableEq

/-- Σ line price × quantity in cents (line subtotals are exact in cents, so
the per-line rounding of §4.4 step 4 is the identity on them). -/
def cartSubtotal (cart : List CartLine) : Nat :=
  (cart.map (fun l => l.price * l.quantity)).sum

/-- Look an item up by id across both menu lists. -/
def findItem (m : Menu) (idStr : String) : Option MenuItem :=
  (m.beverages ++ m.food).find? (fun itm => itm.id == idStr)

/-- Current inventory of the item with this id; 0 when the id is unknown, so
any positive request against an unknown id fails the stock check. -/
def invOf (m : Menu) (idStr : String) : Nat :=
  match findItem m idStr with
  | some itm => itm.inventory
  | none => 0

/-- The first cart line whose requested quantity exceeds current inventory. -/
def firstShort (m : Menu) (cart : List CartLine) : Option CartLine :=
  cart.find? (fun l => decide (invOf m l.id < l.quantity))

/-- Decrement the inventory of every menu item matching a cart line's id. -/
def decOne (m : Menu) (l : CartLine) : Menu :=
  Menu.mk
    (m.beverages.map (fun itm =>
      if itm.id == l.id then { itm with inventory := itm.inventory - l.quantity } else itm))
    (m.food.map (fun itm =>
      if itm.id == l.id then { itm with inventory := itm.inventory - l.quantity } else itm))

/-- Decrement inventory for every cart line (§4.4 step 3). -/
def decrementAll (m : Menu) (cart : List CartLine) : Menu := cart.foldl decOne m

/-- Python `f"{n:05d}"`: decimal digits left-padded with zeros to a minimum
width of 5, for order ids. -/
def pad5 (n : Nat) : String :=
  String.mk (List.replicate (5 - (natToDigits n).length) '0' ++ natToDigits n)

/-- Modelled from the spec: `place_order` (§4.4). The source file's
order-composition code is missing from the repository — cafe.py keeps only a
truncated fragment (lines 386-411) that refers to a `new_order` built by code
that is not present — so this follows the spec's transaction: validate the
customer name, the non-empty cart and the discount bound; re-check EVERY cart
line's requested quantity against current inventory and abort with
InsufficientInventoryError naming the FIRST failing item before any
decrement; then decrement all inventories, compute the rounded totals,
allocate id ORD + %05d(order count + 1), and append the new Pending order.
The returned menu and order list are the persisted documents; on error no
state is returned, so nothing changes. -/
def placeOrder (m : Menu) (orders : List Order) (customer : String)
    (tn : Option String) (cart : List CartLine) (discount : Nat)
    (taxRate serviceRate : Rate) (pay : PayStatus) (dateS timeS tsS : String) :
    Except Err (Menu × List Order × Order) :=
  if customer = "" then Except.error (Err.validationErr "name required")
  else if cart = [] then Except.error (Err.validationErr "cart empty")
  else if cartSubtotal cart < discount then Except.error (Err.validationErr "discount")
  else
    match firstShort m cart with
    | some l => Except.error (Err.insufficientInventory l.name (invOf m l.id))
    | none =>
      let sub := cartSubtotal cart
      let taxable := sub - discount
      let tax := rateApply taxRate taxable
      let svc := rateApply serviceRate taxable
      let ord : Order :=
        { id := "ORD" ++ pad5 (orders.length + 1), customer_name := customer,
          table_number := tn,
          items := cart.map (fun l =>
            LineItem.mk l.id l.name l.price l.quantity (l.price * l.quantity)),
          subtotal := sub, discount := discount, tax := tax, service_charge := svc,
          total := taxable + tax + svc, date := dateS, time := timeS, timestamp := tsS,
          status := OStatus.Pending, payment_status := pay }
      Except.ok (decrementAll m cart, orders ++ [ord], ord)

/-- C1: place_order is atomic with respect to inventory and the order list —
whenever some cart line's requested quantity exceeds that item's current
inventory (and the prior validations of §4.4 step 1 pass: non-empty customer
name, discount within the subtotal), place_order fails with
InsufficientInventoryError naming the FIRST failing cart line (every earlier
line passes the stock check), and returns no updated state: no inventory is
decremented and no order is appended. -/
theorem place_order_atomic (m : Menu) (orders : List Order) (customer : String)
    (tn : Option String) (cart : List CartLine) (discount : Nat)
    (taxRate serviceRate : Rate) (pay : PayStatus) (dateS timeS tsS : String)
    (hname : customer ≠ "") (hdisc : discount ≤ cartSubtotal cart)
    (hshort : ∃ l ∈ cart, invOf m l.id < l.quantity) :
    ∃ l pre post, cart = pre ++ l :: post ∧
      (∀ y ∈ pre, ¬ invOf m y.id < y.quantity) ∧ invOf m l.id < l.quantity ∧
      placeOrder m orders customer tn cart discount taxRate serviceRate pay dateS timeS tsS
        = Except.error (Err.insufficientInventory l.name (invOf m l.id)) ∧
      ∀ m2 os2 o2,
        placeOrder m orders customer tn cart discount taxRate serviceRate pay dateS timeS tsS
          ≠ Except.ok (m2, os2, o2) := by
  obtain ⟨l, hfind⟩ := find?_of_ex (fun l => decide (invOf m l.id < l.quantity)) cart
    (by obtain ⟨x, hx, hlt⟩ := hshort; exact ⟨x, hx, by simp [hlt]⟩)
  obtain ⟨hpl, pre, post, heq, hpre⟩ :=
    find?_split (fun l => decide (invOf m l.id < l.quantity)) cart l hfind
  have hcart : cart ≠ [] := by rw [heq]; simp
  have hnd : ¬ cartSubtotal cart < discount := Nat.not_lt.2 hdisc
  have hrun : placeOrder m orders customer tn cart discount taxRate serviceRate pay dateS timeS tsS
      = Except.error (Err.insufficientInventory l.name (invOf m l.id)) := by
    unfold placeOrder
    rw [if_neg hname, if_neg hcart, if_neg hnd]
    show (match firstShort m cart with
      | some l => Except.error (Err.insufficientInventory l.name (invOf m l.id))
      | none => _) = _
    rw [show firstShort m cart = some l from hfind]
  refine ⟨l, pre, post, heq, ?_, by simpa using hpl, hrun, ?_⟩
  · intro y hy
    have := hpre y hy
    simpa using this
  · intro m2 os2 o2 hok
    rw [hrun] at hok
    cases hok

/-- An item with inventory 5 (the spec's C1 example). -/
def exMocha : MenuItem := MenuItem.mk "BEV010" "Mocha" 400 "Coffee" true "Mocha" 5

/-- Menu holding only the inventory-5 item. -/
def exShortMenu : Menu := Menu.mk [exMocha] []

/-- A cart requesting 6 of the inventory-5 item. -/
def exShortLine : CartLine := CartLine.mk "BEV010" "Mocha" 400 6

/-- Witness for the C1 theorem at the spec's example: inventory 5, requested
quantity 6. -/
theorem place_order_atomic_w :
    ∃ l pre post, ([exShortLine] : List CartLine) = pre ++ l :: post ∧
      (∀ y ∈ pre, ¬ invOf exShortMenu y.id < y.quantity) ∧
      invOf exShortMenu l.id < l.quantity ∧
      placeOrder exShortMenu [] "Cara" none [exShortLine] 0 (Rate.mk 10 100) (Rate.mk 5 100)
          PayStatus.Unpaid "2024-01-01" "10:00" "ts"
        = Except.error (Err.insufficientInventory l.name (invOf exShortMenu l.id)) ∧
      ∀ m2 os2 o2,
        placeOrder exShortMenu [] "Cara" none [exShortLine] 0 (Rate.mk 10 100) (Rate.mk 5 100)
            PayStatus.Unpaid "2024-01-01" "10:00" "ts"
          ≠ Except.ok (m2, os2, o2) :=
  place_order_atomic exShortMenu [] "Cara" none [exShortLine] 0 (Rate.mk 10 100)
    (Rate.mk 5 100) PayStatus.Unpaid "2024-01-01" "10:00" "ts"
    (by decide) (by decide) ⟨exShortLine, by decide, by decide⟩

/-- C2 (amended): for every order produced by place_order,
tax = round(tax_rate × (subtotal − discount), 2),
service_charge = round(service_rate × (subtotal − discount), 2) and
total = round(subtotal − discount + tax + service_charge, 2), every monetary
value being a whole number of cents (2-decimal-place rounding at the point of
computation); on the example items 3.50×2 and 9.00×1 with discount 1.00,
tax rate 0.10 and service rate 0.05 this gives subtotal 16.00, tax 1.50,
service 0.75 and total 17.25 — not the 16.25 the claim states. -/
theorem place_order_totals (m : Menu) (orders : List Order) (customer : String)
    (tn : Option String) (cart : List CartLine) (discount : Nat)
    (taxRate serviceRate : Rate) (pay : PayStatus) (dateS timeS tsS : String)
    (m2 : Menu) (os2 : List Order) (ord : Order)
    (h : placeOrder m orders customer tn cart discount taxRate serviceRate pay dateS timeS tsS
      = Except.ok (m2, os2, ord)) :
    ord.tax = rateApply taxRate (ord.subtotal - ord.discount) ∧
    ord.service_charge = rateApply serviceRate (ord.subtotal - ord.discount) ∧
    ord.total = ord.subtotal - ord.discount + ord.tax + ord.service_charge ∧
    ord.subtotal = cartSubtotal cart ∧
    ord.discount = discount ∧
    os2 = orders ++ [ord] := by
  unfold placeOrder at h
  by_cases h1 : customer = ""
  · rw [if_pos h1] at h; cases h
  rw [if_neg h1] at h
  by_cases h2 : cart = []
  · rw [if_pos h2] at h; cases h
  rw [if_neg h2] at h
  by_cases h3 : cartSubtotal cart < discount
  · rw [if_pos h3] at h; cases h
  rw [if_neg h3] at h
  cases hfs : firstShort m cart with
  | some l =>
    rw [hfs] at h
    cases h
  | none =>
    rw [hfs] at h
    simp only [Except.ok.injEq, Prod.mk.injEq] at h
    obtain ⟨hm2, hos2, hord⟩ := h
    subst hord
    subst hos2
    exact ⟨rfl, rfl, rfl, rfl, rfl, rfl⟩

/-- The Cappuccino item (price 3.50) of the C2 example menu. -/
def exCapp : MenuItem := MenuItem.mk "BEV002" "Cappuccino" 350 "Coffee" true "Capp" 40

/-- The Club Sandwich item (price 9.00) of the C2 example menu. -/
def exSandwich : MenuItem := MenuItem.mk "FOOD004" "Club Sandwich" 900 "Sandwich" true "Club" 30

/-- The C2 example menu. -/
def exMenuPO : Menu := Menu.mk [exCapp] [exSandwich]

/-- The C2 example cart: 3.50 × 2 and 9.00 × 1. -/
def exCartPO : List CartLine :=
  [CartLine.mk "BEV002" "Cappuccino" 350 2, CartLine.mk "FOOD004" "Club Sandwich" 900 1]

/-- C2 counterexample: at the claim's own example input — items
{price 3.50, qty 2} and {price 9.00, qty 1}, discount 1.00, tax_rate 0.10,
service_rate 0.05 — place_order returns subtotal 16.00, tax 1.50,
service 0.75 as claimed, but total 17.25 (= 16.00 − 1.00 + 1.50 + 0.75),
which refutes the claimed total of 16.25. -/
theorem place_order_example_cex :
    (placeOrder exMenuPO [] "Alice" none exCartPO 100 (Rate.mk 10 100) (Rate.mk 5 100)
        PayStatus.Unpaid "2024-01-01" "10:00" "ts").toOption.map
      (fun r => (r.2.2.subtotal, r.2.2.tax, r.2.2.service_charge, r.2.2.total))
      = some (1600, 150, 75, 1725) ∧
    (1725 : Nat) ≠ 1625 :=
  ⟨rfl, by decide⟩

/-- The menu after the C2 example order decrements inventory. -/
def exMenuPO2 : Menu :=
  Menu.mk [MenuItem.mk "BEV002" "Cappuccino" 350 "Coffee" true "Capp" 38]
    [MenuItem.mk "FOOD004" "Club Sandwich" 900 "Sandwich" true "Club" 29]

/-- The order the C2 example produces. -/
def exOrdPO : Order :=
  { id := "ORD00001", customer_name := "Alice", table_number := none,
    items := [LineItem.mk "BEV002" "Cappuccino" 350 2 700,
      LineItem.mk "FOOD004" "Club Sandwich" 900 1 900],
    subtotal := 1600, discount := 100, tax := 150, service_charge := 75, total := 1725,
    date := "2024-01-01", time := "10:00", timestamp := "ts",
    status := OStatus.Pending, payment_status := PayStatus.Unpaid }

/-- Witness for the amended C2 theorem at the concrete example order. -/
theorem place_order_totals_w :
    exOrdPO.tax = rateApply (Rate.mk 10 100) (exOrdPO.subtotal - exOrdPO.discount) ∧
    exOrdPO.service_charge = rateApply (Rate.mk 5 100) (exOrdPO.subtotal - exOrdPO.discount) ∧
    exOrdPO.total = exOrdPO.subtotal - exOrdPO.discount + exOrdPO.tax + exOrdPO.service_charge ∧
    exOrdPO.subtotal = cartSubtotal exCartPO ∧
    exOrdPO.discount = 100 ∧
    ([exOrdPO] : List Order) = [] ++ [exOrdPO] :=
  place_order_totals exMenuPO [] "Alice" none exCartPO 100 (Rate.mk 10 100) (Rate.mk 5 100)
    PayStatus.Unpaid "2024-01-01" "10:00" "ts" exMenuPO2 [exOrdPO] exOrdPO rfl

/-- One dictionary update of the top-items scan (cafe.py lines 490-492):
`item_sales.setdefault(name, 0); item_sales[name] += quantity`. Python dicts
preserve insertion order, so a known name is updated in place and a new name
is appended at the end. -/
def addSale (acc : List (String × Nat)) (nm : String) (q : Nat) : List (String × Nat) :=
  if acc.any (fun x => x.1 == nm) then
    acc.map (fun x => if x.1 == nm then (x.1, x.2 + q) else x)
  else acc ++ [(nm, q)]

/-- `item_sales` after the nested loops over orders and their items
(cafe.py lines 487-492). -/
def itemSales (orders : List Order) : List (String × Nat) :=
  orders.foldl
    (fun acc o => o.items.foldl (fun acc2 it => addSale acc2 it.name it.quantity) acc) []

/-- Insert a pair into a list sorted by quantity descending, after every
element with quantity ≥ its own: combined with `sortDesc` this realises the
stable descending sort of `sorted(..., key=lambda x: x[1], reverse=True)`
(cafe.py line 494) — sortedness and stability determine that output
uniquely. -/
def insertDesc (p : String × Nat) : List (String × Nat) → List (String × Nat)
  | [] => [p]
  | q :: rest => if q.2 < p.2 then p :: q :: rest else q :: insertDesc p rest

/-- Stable sort by quantity descending. -/
def sortDesc (l : List (String × Nat)) : List (String × Nat) :=
  l.foldl (fun acc p => insertDesc p acc) []

/-- `sorted(item_sales.items(), key=lambda x: x[1], reverse=True)[:n]`
(cafe.py line 494); the source displays the first 10, the spec's
top_items(orders, n) takes the bound as the parameter `n`. -/
def topItems (orders : List Order) (n : Nat) : List (String × Nat) :=
  (sortDesc (itemSales orders)).take n

/-- The chronological stream of (name, quantity) pairs of all order lines. -/
def salesStream : List Order → List (String × Nat)
  | [] => []
  | o :: os => o.items.map (fun it => (it.name, it.quantity)) ++ salesStream os

/-- The total quantity the stream orders under a given name. -/
def countIn (l : List (String × Nat)) (nm : String) : Nat :=
  ((l.filter (fun x => x.1 == nm)).map Prod.snd).sum

/-- The distinct names of the stream in first-encounter order, those already
in `seen` excluded. -/
def newNames : List (String × Nat) → List String → List String
  | [], _ => []
  | p :: rest, seen =>
    if p.1 ∈ seen then newNames rest seen
    else p.1 :: newNames rest (seen ++ [p.1])

/-- Fold the dictionary updates of the stream into an accumulator. -/
def aggFold (l acc : List (String × Nat)) : List (String × Nat) :=
  l.foldl (fun a p => addSale a p.1 p.2) acc

/-- Quantity-descending comparison on (name, quantity) pairs. -/
def geQty (a b : String × Nat) : Prop := b.2 ≤ a.2

theorem countIn_cons (nm : String) (q : Nat) (rest : List (String × Nat)) (s : String) :
    countIn ((nm, q) :: rest) s = (if nm = s then q else 0) + countIn rest s := by
  unfold countIn
  rw [List.filter_cons]
  by_cases h : nm = s
  · simp [h]
  · simp [h]

theorem newNames_not_mem :
    ∀ (l : List (String × Nat)) (seen : List String) (x : String),
      x ∈ newNames l seen → x ∉ seen := by
  intro l
  induction l with
  | nil => intro seen x h; cases h
  | cons p rest ih =>
    intro seen x h
    by_cases hmem : p.1 ∈ seen
    · rw [show newNames (p :: rest) seen = newNames rest seen from by
        simp only [newNames, if_pos hmem]] at h
      exact ih seen x h
    · rw [show newNames (p :: rest) seen = p.1 :: newNames rest (seen ++ [p.1]) from by
        simp only [newNames, if_neg hmem]] at h
      rcases List.mem_cons.1 h with rfl | h2
      · exact hmem
      · intro hxseen
        exact ih (seen ++ [p.1]) x h2 (List.mem_append.2 (Or.inl hxseen))

theorem aggFold_eq : ∀ l acc : List (String × Nat),
    aggFold l acc =
      acc.map (fun p => (p.1, p.2 + countIn l p.1))
        ++ (newNames l (acc.map Prod.fst)).map (fun nm => (nm, countIn l nm)) := by
  intro l
  induction l with
  | nil =>
    intro acc
    show acc = _
    simp [newNames, countIn]
  | cons hd rest ih =>
    obtain ⟨nm, q⟩ := hd
    intro acc
    show aggFold rest (addSale acc nm q) = _
    by_cases hmem : ∃ x ∈ acc, x.1 = nm
    · have hany : acc.any (fun x => x.1 == nm) = true := by
        rw [List.any_eq_true]
        obtain ⟨x, hx, he⟩ := hmem
        exact ⟨x, hx, by simp [he]⟩
      have haddSale : addSale acc nm q
          = acc.map (fun x => if x.1 == nm then (x.1, x.2 + q) else x) := by
        simp only [addSale, hany, if_true]
      rw [haddSale, ih]
      have hfst : (acc.map (fun x => if x.1 == nm then (x.1, x.2 + q) else x)).map Prod.fst
          = acc.map Prod.fst := by
        rw [List.map_map]
        refine List.map_congr_left ?_
        intro x _
        show Prod.fst (if x.1 == nm then (x.1, x.2 + q) else x) = x.1
        by_cases hx : (x.1 == nm) = true
        · rw [if_pos hx]
        · rw [if_neg hx]
      rw [hfst]
      have hnm_seen : nm ∈ acc.map Prod.fst := by
        obtain ⟨x, hx, he⟩ := hmem
        exact List.mem_map.2 ⟨x, hx, he⟩
      have hnames : newNames ((nm, q) :: rest) (acc.map Prod.fst)
          = newNames rest (acc.map Prod.fst) := by
        simp only [newNames, if_pos hnm_seen]
      rw [hnames]
      congr 1
      · rw [List.map_map]
        refine List.map_congr_left ?_
        intro x _
        show (fun p => (p.1, p.2 + countIn rest p.1))
            (if x.1 == nm then (x.1, x.2 + q) else x)
          = (x.1, x.2 + countIn ((nm, q) :: rest) x.1)
        rw [countIn_cons]
        by_cases hx : x.1 = nm
        · rw [if_pos (by simp [hx] : (x.1 == nm) = true)]
          dsimp only
          rw [if_pos hx.symm, Nat.add_assoc]
        · rw [if_neg (by simp [hx] : ¬ (x.1 == nm) = true)]
          rw [if_neg (fun he => hx he.symm), Nat.zero_add]
      · refine List.map_congr_left ?_
        intro x hx
        have hxs := newNames_not_mem rest (acc.map Prod.fst) x hx
        have hxnm : ¬ nm = x := fun he => hxs (he ▸ hnm_seen)
        rw [countIn_cons, if_neg hxnm, Nat.zero_add]
    · have hany : acc.any (fun x => x.1 == nm) = false := by
        rw [List.any_eq_false]
        intro x hx h
        exact hmem ⟨x, hx, by simpa using h⟩
      have haddSale : addSale acc nm q = acc ++ [(nm, q)] := by
        simp only [addSale, hany, Bool.false_eq_true, if_false]
      rw [haddSale, ih]
      have hnm_notseen : nm ∉ acc.map Prod.fst := by
        intro h
        obtain ⟨x, hx, he⟩ := List.mem_map.1 h
        exact hmem ⟨x, hx, he⟩
      have hfst2 : (acc ++ [(nm, q)]).map Prod.fst = acc.map Prod.fst ++ [nm] := by
        rw [List.map_append]
        rfl
      rw [hfst2]
      have hnames : newNames ((nm, q) :: rest) (acc.map Prod.fst)
          = nm :: newNames rest (acc.map Prod.fst ++ [nm]) := by
        simp only [newNames, if_neg hnm_notseen]
      rw [hnames]
      have hmapacc : acc.map (fun p => (p.1, p.2 + countIn rest p.1))
          = acc.map (fun p => (p.1, p.2 + countIn ((nm, q) :: rest) p.1)) := by
        refine List.map_congr_left ?_
        intro x hx
        have hxnm : ¬ nm = x.1 := fun he => hmem ⟨x, hx, he.symm⟩
        rw [countIn_cons, if_neg hxnm, Nat.zero_add]
      have htail : (newNames rest (acc.map Prod.fst ++ [nm])).map
            (fun x => (x, countIn rest x))
          = (newNames rest (acc.map Prod.fst ++ [nm])).map
            (fun x => (x, countIn ((nm, q) :: rest) x)) := by
        refine List.map_congr_left ?_
        intro x hx
        have hxs := newNames_not_mem rest (acc.map Prod.fst ++ [nm]) x hx
        have hxnm : ¬ nm = x := by
          intro he
          exact hxs (List.mem_append.2 (Or.inr (by rw [he]; exact List.mem_singleton.2 rfl)))
        rw [countIn_cons, if_neg hxnm, Nat.zero_add]
      rw [List.map_append, hmapacc, htail]
      simp only [List.map_cons, List.map_nil, List.nil_append, List.append_assoc,
        List.singleton_append]
      rw [countIn_cons, if_pos rfl]

theorem itemSales_eq_aggFold (orders : List Order) :
    itemSales orders = aggFold (salesStream orders) [] := by
  suffices h : ∀ (os : List Order) (acc : List (String × Nat)),
      os.foldl (fun acc2 o => o.items.foldl (fun a it => addSale a it.name it.quantity) acc2) acc
        = aggFold (salesStream os) acc by
    exact h orders []
  intro os
  induction os with
  | nil => intro acc; rfl
  | cons o os2 ih =>
    intro acc
    show os2.foldl _ (o.items.foldl _ acc) = aggFold (_ ++ salesStream os2) acc
    rw [ih]
    unfold aggFold
    rw [List.foldl_append, List.foldl_map]

theorem itemSales_closed (orders : List Order) :
    itemSales orders = (newNames (salesStream orders) []).map
      (fun nm => (nm, countIn (salesStream orders) nm)) := by
  rw [itemSales_eq_aggFold, aggFold_eq]
  rfl

theorem mem_insertDesc (p x : String × Nat) :
    ∀ l, x ∈ insertDesc p l ↔ x = p ∨ x ∈ l := by
  intro l
  induction l with
  | nil => simp [insertDesc]
  | cons q rest ih =>
    show x ∈ (if q.2 < p.2 then p :: q :: rest else q :: insertDesc p rest) ↔ _
    by_cases h : q.2 < p.2
    · rw [if_pos h]
      simp
    · rw [if_neg h]
      simp only [List.mem_cons, ih]
      tauto

theorem insertDesc_pairwise (p : String × Nat) :
    ∀ l, List.Pairwise geQty l → List.Pairwise geQty (insertDesc p l) := by
  intro l
  induction l with
  | nil => intro _; simp [insertDesc, List.pairwise_cons]
  | cons q rest ih =>
    intro hs
    obtain ⟨hq, hrest⟩ := List.pairwise_cons.1 hs
    show List.Pairwise geQty (if q.2 < p.2 then p :: q :: rest else q :: insertDesc p rest)
    by_cases h : q.2 < p.2
    · rw [if_pos h]
      refine List.pairwise_cons.2 ⟨?_, hs⟩
      intro y hy
      rcases List.mem_cons.1 hy with rfl | hy2
      · exact Nat.le_of_lt h
      · exact Nat.le_trans (hq y hy2) (Nat.le_of_lt h)
    · rw [if_neg h]
      refine List.pairwise_cons.2 ⟨?_, ih hrest⟩
      intro y hy
      rcases (mem_insertDesc p y rest).1 hy with rfl | hy2
      · exact Nat.not_lt.1 h
      · exact hq y hy2

theorem sortDesc_pairwise (l : List (String × Nat)) :
    List.Pairwise geQty (sortDesc l) := by
  suffices h : ∀ (l2 acc : List (String × Nat)), List.Pairwise geQty acc →
      List.Pairwise geQty (l2.foldl (fun a p => insertDesc p a) acc) by
    exact h l [] (by simp)
  intro l2
  induction l2 with
  | nil => intro acc h; exact h
  | cons p rest ih =>
    intro acc h
    exact ih (insertDesc p acc) (insertDesc_pairwise p acc h)

theorem filter_insertDesc (v : Nat) (p : String × Nat) :
    ∀ l, List.Pairwise geQty l →
      (insertDesc p l).filter (fun x => x.2 == v)
        = if p.2 = v then l.filter (fun x => x.2 == v) ++ [p]
          else l.filter (fun x => x.2 == v) := by
  intro l
  induction l with
  | nil =>
    intro _
    show ([p].filter (fun x => x.2 == v)) = _
    rw [List.filter_cons]
    by_cases h : p.2 = v
    · rw [if_pos (by simp [h] : (p.2 == v) = true), if_pos h]
      rfl
    · rw [if_neg (by simp [h] : ¬ (p.2 == v) = true), if_neg h]
  | cons q rest ih =>
    intro hs
    obtain ⟨hq, hrest⟩ := List.pairwise_cons.1 hs
    show ((if q.2 < p.2 then p :: q :: rest else q :: insertDesc p rest).filter
      (fun x => x.2 == v)) = _
    by_cases h : q.2 < p.2
    · rw [if_pos h]
      by_cases hv : p.2 = v
      · have hnone : (q :: rest).filter (fun x => x.2 == v) = [] := by
          rw [List.filter_eq_nil_iff]
          intro y hy
          have hyle : y.2 ≤ q.2 := by
            rcases List.mem_cons.1 hy with rfl | hy2
            · exact Nat.le_refl _
            · exact hq y hy2
          simp only [beq_iff_eq]
          omega
        rw [if_pos hv]
        rw [List.filter_cons, if_pos (by simp [hv])]
        rw [hnone]
        rfl
      · rw [if_neg hv]
        rw [List.filter_cons, if_neg (by simp [hv])]
    · rw [if_neg h]
      rw [List.filter_cons, ih hrest, List.filter_cons]
      by_cases hv : p.2 = v <;> by_cases hqv : (q.2 == v) = true <;>
        simp [hv, hqv]

theorem sortDesc_filter (l : List (String × Nat)) (v : Nat) :
    (sortDesc l).filter (fun x => x.2 == v) = l.filter (fun x => x.2 == v) := by
  suffices h : ∀ (l2 acc : List (String × Nat)), List.Pairwise geQty acc →
      (l2.foldl (fun a p => insertDesc p a) acc).filter (fun x => x.2 == v)
        = acc.filter (fun x => x.2 == v) ++ l2.filter (fun x => x.2 == v) by
    have h2 := h l [] (by simp)
    simpa using h2
  intro l2
  induction l2 with
  | nil => intro acc _; simp
  | cons p rest ih =>
    intro acc hacc
    show ((rest.foldl (fun a p => insertDesc p a) (insertDesc p acc)).filter
      (fun x => x.2 == v)) = _
    rw [ih (insertDesc p acc) (insertDesc_pairwise p acc hacc)]
    rw [filter_insertDesc v p acc hacc]
    rw [List.filter_cons]
    by_cases hv : p.2 = v
    · rw [if_pos hv, if_pos (by simp [hv])]
      rw [List.append_assoc, List.singleton_append]
    · rw [if_neg hv, if_neg (by simp [hv])]

theorem mem_sortDesc (x : String × Nat) (l : List (String × Nat)) :
    x ∈ sortDesc l ↔ x ∈ l := by
  suffices h : ∀ (l2 acc : List (String × Nat)),
      (x ∈ l2.foldl (fun a p => insertDesc p a) acc ↔ x ∈ acc ∨ x ∈ l2) by
    have h2 := h l []
    simpa using h2
  intro l2
  induction l2 with
  | nil => intro acc; simp
  | cons p rest ih =>
    intro acc
    show x ∈ rest.foldl (fun a p => insertDesc p a) (insertDesc p acc) ↔ _
    rw [ih (insertDesc p acc), mem_insertDesc]
    simp only [List.mem_cons]
    tauto

/-- A completed order with Latte×2 and Croissant×1. -/
def exOrderC9a : Order :=
  { id := "ORD00003", customer_name := "D", table_number := none,
    items := [LineItem.mk "BEV003" "Latte" 400 2 800,
      LineItem.mk "FOOD001" "Croissant" 250 1 250],
    subtotal := 1050, discount := 0, tax := 105, service_charge := 53, total := 1208,
    date := "2024-01-02", time := "09:00", timestamp := "2024-01-02 09:00:00",
    status := OStatus.Completed, payment_status := PayStatus.Paid }

/-- A completed order with Latte×1. -/
def exOrderC9b : Order :=
  { id := "ORD00004", customer_name := "E", table_number := some "2",
    items := [LineItem.mk "BEV003" "Latte" 400 1 400],
    subtotal := 400, discount := 0, tax := 40, service_charge := 20, total := 460,
    date := "2024-01-02", time := "09:30", timestamp := "2024-01-02 09:30:00",
    status := OStatus.Completed, payment_status := PayStatus.Paid }

/-- The C9 example order list: {Latte×2, Croissant×1} then {Latte×1}. -/
def exOrdersC9 : List Order := [exOrderC9a, exOrderC9b]

/-- C9: top_items aggregates ordered quantities per item name in
first-encounter order, sorts the aggregate by quantity descending with a
stable sort — ties keep first-encounter order, witnessed by filtering on any
fixed quantity commuting with the sort — truncates to n entries, and every
returned pair carries the total ordered quantity of its name; on orders
containing {Latte×2, Croissant×1} and {Latte×1} it returns
[(Latte, 3), (Croissant, 1)]. (The source displays the first 10 entries; the
spec's top_items(orders, n) takes the bound n as a parameter.) -/
theorem top_items_spec :
    (∀ (orders : List Order) (n : Nat), topItems orders n
        = (sortDesc ((newNames (salesStream orders) []).map
            (fun nm => (nm, countIn (salesStream orders) nm)))).take n) ∧
    (∀ (orders : List Order) (n : Nat), List.Pairwise geQty (topItems orders n)) ∧
    (∀ (orders : List Order) (n : Nat), (topItems orders n).length ≤ n) ∧
    (∀ (orders : List Order) (n : Nat), ∀ p ∈ topItems orders n,
      p.2 = countIn (salesStream orders) p.1) ∧
    (∀ (orders : List Order) (v : Nat),
      (sortDesc (itemSales orders)).filter (fun x => x.2 == v)
        = (itemSales orders).filter (fun x => x.2 == v)) ∧
    topItems exOrdersC9 10 = [("Latte", 3), ("Croissant", 1)] := by
  refine ⟨?_, ?_, ?_, ?_, ?_, by decide⟩
  · intro orders n
    show (sortDesc (itemSales orders)).take n = _
    rw [itemSales_closed]
  · intro orders n
    exact List.Pairwise.sublist (List.take_sublist n _) (sortDesc_pairwise _)
  · intro orders n
    rw [show topItems orders n = (sortDesc (itemSales orders)).take n from rfl,
      List.length_take]
    exact min_le_left n _
  · intro orders n p hp
    have h1 : p ∈ sortDesc (itemSales orders) := (List.take_sublist n _).subset hp
    have h2 : p ∈ itemSales orders := (mem_sortDesc p _).1 h1
    rw [itemSales_closed] at h2
    obtain ⟨nm, _, he⟩ := List.mem_map.1 h2
    subst he
    rfl
  · intro orders v
    exact sortDesc_filter (itemSales orders) v

/-- Witness for the C9 theorem at a concrete input: the (Latte, 3) entry of
the example result carries Latte's total ordered quantity. -/
theorem top_items_spec_w :
    (("Latte", 3) : String × Nat).2
      = countIn (salesStream exOrdersC9) (("Latte", 3) : String × Nat).1 :=
  top_items_spec.2.2.2.1 exOrdersC9 10 ("Latte", 3) (by decide)
